import Mathlib

/-!
Shallow embedding of the `stocknear_clone` Django application, covering the
stocks proxy views (`stocks/views.py`), the integration form and verification
views (`integrations/forms.py`, `integrations/views.py`) and the news
ingestion command (`news/management/commands/fetch_news.py`).

Python strings are modelled as lists of Unicode code points (`List Nat`),
JSON objects as association lists from field names to string values, the
external market-data API as an explicit `Except`-valued argument (success
carries the decoded JSON list, failure stands for any raised exception during
`requests.get` / `raise_for_status` / `.json()`), and the database and the
system keyring as explicit values or effect traces.
-/

namespace TradeCheck

/-- A Python string, as its list of Unicode code points. -/
abbrev Str := List Nat

/-- One code point of Python `str.upper()`: ASCII lowercase letters (code
points 97..122) map to the corresponding uppercase letter, everything else is
unchanged. -/
def upperCp (n : Nat) : Nat :=
  if 97 ≤ n ∧ n ≤ 122 then n - 32 else n

/-- Python `s.upper()` applied code point by code point. -/
def pyUpper (s : Str) : Str := s.map upperCp

/-- `upperCp` is idempotent: an already-uppercased code point is unchanged. -/
theorem upperCp_idem (n : Nat) : upperCp (upperCp n) = upperCp n := by
  by_cases h : 97 ≤ n ∧ n ≤ 122
  · have h1 : upperCp n = n - 32 := if_pos h
    have hno : ¬ (97 ≤ n - 32 ∧ n - 32 ≤ 122) := by omega
    have h2 : upperCp (n - 32) = n - 32 := if_neg hno
    rw [h1, h2]
  · have h1 : upperCp n = n := if_neg h
    rw [h1, h1]

/-- `pyUpper` is idempotent. -/
theorem pyUpper_idem (s : Str) : pyUpper (pyUpper s) = pyUpper s := by
  induction s with
  | nil => rfl
  | cons a as ih =>
      simp only [pyUpper, List.map_cons] at ih ⊢
      rw [upperCp_idem]
      rw [ih]

/-- `startsWith q s` holds when `q` is a prefix of `s` (used to model the
Python substring test `q in s`). -/
def startsWith (q s : Str) : Bool :=
  match q, s with
  | [], _ => true
  | _ :: _, [] => false
  | a :: as, b :: bs => a == b && startsWith as bs

/-- Python `q in s` on strings: `q` occurs contiguously inside `s`. -/
def containsSub (q : Str) : Str → Bool
  | [] => startsWith q []
  | b :: bs => startsWith q (b :: bs) || containsSub q bs

/-- A JSON object from the external API, as an association list from field
names to string values. -/
abbrev JsonObj := List (Str × Str)

/-- Python `item.get(key, dflt)` on a JSON object. -/
def dictGet (item : JsonObj) (key : Str) (dflt : Str) : Str :=
  match item.lookup key with
  | some v => v
  | none => dflt

/-- The field name `symbol`, as code points. -/
def symbolField : Str := [115, 121, 109, 98, 111, 108]

/-- The hard-coded verification symbol `AAPL`, as code points. -/
def aaplSym : Str := [65, 65, 80, 76]

/-- Outcome of one external HTTP request: the decoded JSON list on success,
or an error standing for any exception raised while fetching or decoding. -/
abbrev ApiResult := Except Unit (List JsonObj)

/-- The ways `stock_detail` raises Django's `Http404`. -/
inductive Http404 where
  | apiKeyMissing : Http404
  | noData (symbol : Str) : Http404
  | fetchFailed (symbol : Str) : Http404
  deriving Repr, DecidableEq

/-- Context rendered by the `stocks/stock_list.html` template for the list
and search views: the collection of stock JSON objects (and the query for
the search view, empty for the list view). -/
structure ListPage where
  stocks : List JsonObj
  deriving Repr, DecidableEq

/-- Context rendered for a search: the filtered stocks and the uppercased
query. -/
structure SearchPage where
  stocks : List JsonObj
  query : Str
  deriving Repr, DecidableEq

/-- Context rendered by `stocks/stock_detail.html`: the first JSON object of
the quote response. -/
structure DetailPage where
  stock : JsonObj
  deriving Repr, DecidableEq

/-- `stock_list` from `stocks/views.py`.  If the API key is unset it logs and
renders an empty collection; otherwise it fetches the gainers endpoint,
treats any exception as an empty list, and truncates to 100 entries.  The
view itself never raises, which the `Except` result type makes explicit. -/
def stock_list (apiKey : Str) (gainers : ApiResult) : Except Http404 ListPage :=
  if apiKey = [] then
    Except.ok { stocks := [] }
  else
    let data := match gainers with
      | Except.ok d => d
      | Except.error _ => []
    Except.ok { stocks := data.take 100 }

/-- `stock_search` from `stocks/views.py`.  The query parameter is read with
default `""` and uppercased; only when both the (uppercased) query and the
API key are non-empty is the gainers endpoint fetched (the Bool component
records whether that external call was issued).  On success the list is
filtered by the substring test `q in item.get("symbol", "")`, on any
exception the result list is empty. -/
def stock_search (apiKey : Str) (qParam : Option Str) (gainers : ApiResult) :
    SearchPage × Bool :=
  let q := pyUpper (qParam.getD [])
  if q ≠ [] ∧ apiKey ≠ [] then
    match gainers with
    | Except.ok allData =>
        ({ stocks := allData.filter fun item => containsSub q (dictGet item symbolField []),
           query := q }, true)
    | Except.error _ => ({ stocks := [], query := q }, true)
  else
    ({ stocks := [], query := q }, false)

/-- `stock_detail` from `stocks/views.py`.  The symbol is uppercased first;
a missing API key raises `Http404` before any request.  Otherwise the quote
endpoint is consulted (modelled by `quoteApi`, a map from requested symbol
to response); an empty response raises `Http404`, any other exception is
converted to `Http404`.  The second component records which symbol, if any,
was requested from the external API. -/
def stock_detail (apiKey symbol0 : Str) (quoteApi : Str → ApiResult) :
    Except Http404 DetailPage × Option Str :=
  let symbol := pyUpper symbol0
  if apiKey = [] then
    (Except.error Http404.apiKeyMissing, none)
  else
    match quoteApi symbol with
    | Except.ok [] => (Except.error (Http404.noData symbol), some symbol)
    | Except.ok (d :: _) => (Except.ok { stock := d }, some symbol)
    | Except.error _ => (Except.error (Http404.fetchFailed symbol), some symbol)

/-- C1: when a search is actually issued (non-empty query, configured API
key) and the gainers endpoint returns a list, `stock_search` keeps exactly
the entries whose `symbol` field contains the uppercased query as a
substring; the compared field `dictGet item symbolField []` is taken verbatim
from the entry, not uppercased, so a lowercase symbol matches only if the
uppercased query occurs in it literally. -/
theorem stock_search_filter_exact (apiKey q : Str) (l : List JsonObj)
    (hq : q ≠ []) (hk : apiKey ≠ []) :
    (stock_search apiKey (some q) (Except.ok l)).1.stocks
      = l.filter fun item => containsSub (pyUpper q) (dictGet item symbolField []) := by
  have hq2 : pyUpper q ≠ [] := by
    cases q with
    | nil => exact absurd rfl hq
    | cons a as => simp [pyUpper]
  simp [stock_search, hq2, hk]

/-- C1 witness: a concrete search with API key `"K"` and query `"a"` over a
two-entry gainers list keeps exactly the entry whose symbol contains `"A"`. -/
theorem stock_search_filter_exact_witness :
    (stock_search [75] (some [97])
        (Except.ok [[(symbolField, [65, 66])], [(symbolField, [97, 98])]])).1.stocks
      = List.filter (fun item => containsSub (pyUpper [97]) (dictGet item symbolField []))
          [[(symbolField, [65, 66])], [(symbolField, [97, 98])]] :=
  stock_search_filter_exact [75] [97]
    [[(symbolField, [65, 66])], [(symbolField, [97, 98])]]
    (by decide) (by decide)

/-- C6: with the API key absent (empty string), `stock_list` renders the page
with an empty stock collection and returns normally, raising no exception. -/
theorem stock_list_empty_key (gainers : ApiResult) :
    stock_list [] gainers = Except.ok { stocks := [] } := by
  simp [stock_list]

/-- C7: `stock_detail` uppercases the symbol before building the quote
request, so for every symbol the view behaves identically on `s` and on
`s.upper()`: same external lookup (second component) and same rendered or
raised outcome (first component). -/
theorem stock_detail_case_normalized (apiKey s : Str) (quoteApi : Str → ApiResult) :
    stock_detail apiKey s quoteApi = stock_detail apiKey (pyUpper s) quoteApi := by
  simp only [stock_detail, pyUpper_idem]

/-- C8: when the key is configured and the gainers fetch succeeds with list
`l`, `stock_list` renders exactly `l.take 100`: the first 100 entries in
their original order, all of them when `l` has at most 100. -/
theorem stock_list_take_100 (apiKey : Str) (l : List JsonObj) (hk : apiKey ≠ []) :
    stock_list apiKey (Except.ok l) = Except.ok { stocks := l.take 100 }
    ∧ (l.take 100).length ≤ 100 := by
  refine ⟨by simp [stock_list, hk], ?_⟩
  have h := List.length_take 100 l
  omega

/-- C8 witness: with key `"K"` and a 101-entry gainers list, the rendered
collection is the 100-entry truncation. -/
theorem stock_list_take_100_witness :
    stock_list [75] (Except.ok (List.replicate 101 []))
        = Except.ok { stocks := (List.replicate 101 ([] : JsonObj)).take 100 }
    ∧ ((List.replicate 101 ([] : JsonObj)).take 100).length ≤ 100 :=
  stock_list_take_100 [75] (List.replicate 101 []) (by decide)

/-- C9: `stock_search` issues no external call and renders an empty result
list when the query parameter is absent or empty, whatever the key; and when
the API key is absent it likewise issues no call and renders an empty list,
whatever the query. -/
theorem stock_search_no_call (apiKey : Str) (qParam : Option Str) (g : ApiResult) :
    ((qParam = none ∨ qParam = some []) →
        stock_search apiKey qParam g = ({ stocks := [], query := [] }, false))
    ∧ (apiKey = [] →
        (stock_search apiKey qParam g).2 = false
        ∧ (stock_search apiKey qParam g).1.stocks = []) := by
  constructor
  · intro hq
    rcases hq with h | h <;> subst h <;> simp [stock_search, pyUpper]
  · intro hk
    subst hk
    simp [stock_search]

/-- C9 witness: with the key configured but the query parameter absent, no
call is made and the list is empty; with the key absent and query `"a"`,
likewise no call is made. -/
theorem stock_search_no_call_witness :
    stock_search [75] none (Except.ok []) = ({ stocks := [], query := [] }, false)
    ∧ ((stock_search [] (some [97]) (Except.ok [])).2 = false
        ∧ (stock_search [] (some [97]) (Except.ok [])).1.stocks = []) :=
  ⟨(stock_search_no_call [75] none (Except.ok [])).1 (Or.inl rfl),
   (stock_search_no_call [] (some [97]) (Except.ok [])).2 rfl⟩

/-- The `Integration` model from `integrations/models.py`: owning user,
provider, username, the derived keyring item name, and the verified flag.
The `updated_at` column is an automatic timestamp set by the framework on
every save and is not part of the modelled state. -/
structure Integration where
  userId : Nat
  provider : Str
  username : Str
  key_name : Str
  verified : Bool
  deriving Repr, DecidableEq

/-- `integration_verify` from `integrations/views.py`: it calls the
`stock_detail` view for the hard-coded symbol `AAPL`; if that call returns
normally it sets `verified := true`, if it raises any exception it sets
`verified := false`; in both branches it then saves the record.  The result
is the record as saved, paired with whether a save happened (always true). -/
def integration_verify (inst : Integration) (apiKey : Str)
    (quoteApi : Str → ApiResult) : Integration × Bool :=
  match (stock_detail apiKey aaplSym quoteApi).1 with
  | Except.ok _ => ({ inst with verified := true }, true)
  | Except.error _ => ({ inst with verified := false }, true)

/-- The form's cleaned data: the two model fields plus the extra password
field of `IntegrationForm`. -/
structure CleanedData where
  provider : Str
  username : Str
  password : Str
  deriving Repr, DecidableEq

/-- The code point of the colon character. -/
def colonStr : Str := [58]

/-- One side effect of `IntegrationForm.save`: a completed database write of
a record, or a completed `keyring.set_password(service, account, secret)`. -/
inductive SaveEffect where
  | dbWrite (record : Integration) : SaveEffect
  | storeWrite (service account secret : Str) : SaveEffect
  deriving Repr, DecidableEq

/-- The record produced by `super().save(commit=False)` followed by the
`key_name` assignment in `IntegrationForm.save`: the form fields `provider`
and `username` are copied onto the instance, then `key_name` is set to
`f"{inst.provider}:{inst.username}"`. -/
def form_build (inst : Integration) (cd : CleanedData) : Integration :=
  let inst1 := { inst with provider := cd.provider, username := cd.username }
  { inst1 with key_name := inst1.provider ++ colonStr ++ inst1.username }

/-- `IntegrationForm.save` from `integrations/forms.py`.  `dbOutcome` is the
outcome of `inst.save()` (the database write).  With `commit` set, the
database write runs first; only if it returns normally does
`keyring.set_password(inst.provider, inst.username, password)` run.  The
returned trace lists the completed side effects in order; a database
exception propagates (`Except.error`) with no completed effect. -/
def form_save (inst : Integration) (cd : CleanedData) (commit : Bool)
    (dbOutcome : Except Unit Unit) : Except Unit Integration × List SaveEffect :=
  let inst2 := form_build inst cd
  if commit then
    match dbOutcome with
    | Except.ok _ =>
        (Except.ok inst2,
         [SaveEffect.dbWrite inst2,
          SaveEffect.storeWrite inst2.provider inst2.username cd.password])
    | Except.error _ => (Except.error (), [])
  else
    (Except.ok inst2, [])

/-- C2: `integration_verify` sets `verified` to true exactly when the
proxied `stock_detail` call for the hard-coded symbol `AAPL` completes
without raising, and to false on any exception, whatever its cause. -/
theorem integration_verify_verified_iff (inst : Integration) (apiKey : Str)
    (quoteApi : Str → ApiResult) :
    (∀ p, (stock_detail apiKey aaplSym quoteApi).1 = Except.ok p →
        (integration_verify inst apiKey quoteApi).1.verified = true)
    ∧ (∀ e, (stock_detail apiKey aaplSym quoteApi).1 = Except.error e →
        (integration_verify inst apiKey quoteApi).1.verified = false) := by
  cases h : (stock_detail apiKey aaplSym quoteApi).1 with
  | error e =>
      refine ⟨fun p hp => ?_, fun x hx => ?_⟩
      · cases hp
      · simp [integration_verify, h]
  | ok p =>
      refine ⟨fun p2 hp => ?_, fun x hx => ?_⟩
      · simp [integration_verify, h]
      · cases hx

/-- C2 witness: with the API key absent the quote call raises `Http404`, and
a record whose `verified` flag was true is re-saved with `verified = false`. -/
theorem integration_verify_verified_iff_witness :
    (integration_verify ⟨0, [], [], [], true⟩ [] (fun _ => Except.ok [])).1.verified
      = false :=
  (integration_verify_verified_iff ⟨0, [], [], [], true⟩ []
      (fun _ => Except.ok [])).2 Http404.apiKeyMissing rfl

/-- C10: `integration_verify` saves the record in both the success and the
failure branch (the save flag is always true), and the saved record agrees
with the input on every modelled field other than `verified`: user,
provider, username and `key_name` are unchanged.  (`updated_at` is the
framework's automatic timestamp, outside the modelled state.) -/
theorem integration_verify_frame (inst : Integration) (apiKey : Str)
    (quoteApi : Str → ApiResult) :
    (integration_verify inst apiKey quoteApi).2 = true
    ∧ (integration_verify inst apiKey quoteApi).1.userId = inst.userId
    ∧ (integration_verify inst apiKey quoteApi).1.provider = inst.provider
    ∧ (integration_verify inst apiKey quoteApi).1.username = inst.username
    ∧ (integration_verify inst apiKey quoteApi).1.key_name = inst.key_name := by
  cases h : (stock_detail apiKey aaplSym quoteApi).1 <;>
    simp [integration_verify, h]

/-- C4: every record returned successfully by `IntegrationForm.save` has
`key_name` equal to its provider, a colon, and its username, concatenated. -/
theorem form_save_key_name (inst : Integration) (cd : CleanedData) (commit : Bool)
    (dbOutcome : Except Unit Unit) (r : Integration) (fx : List SaveEffect)
    (h : form_save inst cd commit dbOutcome = (Except.ok r, fx)) :
    r.key_name = r.provider ++ colonStr ++ r.username := by
  have hr : r = form_build inst cd := by
    cases commit <;> cases dbOutcome <;>
      simp [form_save] at h <;> exact h.1.symm
  subst hr
  rfl

/-- C4 witness: saving provider `"w"` and username `"u"` over a blank record
yields `key_name = "w:u"`. -/
theorem form_save_key_name_witness :
    (form_build ⟨7, [], [], [], false⟩ ⟨[119], [117], [112]⟩).key_name
      = (form_build ⟨7, [], [], [], false⟩ ⟨[119], [117], [112]⟩).provider
        ++ colonStr
        ++ (form_build ⟨7, [], [], [], false⟩ ⟨[119], [117], [112]⟩).username :=
  form_save_key_name ⟨7, [], [], [], false⟩ ⟨[119], [117], [112]⟩ true
    (Except.ok ()) (form_build ⟨7, [], [], [], false⟩ ⟨[119], [117], [112]⟩)
    [SaveEffect.dbWrite (form_build ⟨7, [], [], [], false⟩ ⟨[119], [117], [112]⟩),
     SaveEffect.storeWrite [119] [117] [112]]
    (by rfl)

/-- C5: in the commit save flow, when the database write succeeds the trace
is exactly the database write followed by the credential-store write (so the
database write happens strictly first), and when the database write raises,
the trace is empty: in particular the credential store is not written. -/
theorem form_save_db_before_store (inst : Integration) (cd : CleanedData) :
    (form_save inst cd true (Except.ok ())).2
      = [SaveEffect.dbWrite (form_build inst cd),
         SaveEffect.storeWrite (form_build inst cd).provider
           (form_build inst cd).username cd.password]
    ∧ (form_save inst cd true (Except.error ())).2 = [] := by
  exact ⟨rfl, rfl⟩

/-- Whether a code point is whitespace for Python's default `str.strip()`
(space, tab, newline, carriage return, vertical tab, form feed). -/
def isSpaceCp (n : Nat) : Bool :=
  n == 32 || n == 9 || n == 10 || n == 13 || n == 11 || n == 12

/-- Python `s.strip()`: drop whitespace from both ends. -/
def pyStrip (s : Str) : Str :=
  ((s.dropWhile isSpaceCp).reverse.dropWhile isSpaceCp).reverse

/-- One entry of a parsed RSS feed: its link, its title, and its published
timestamp when present (seconds since the epoch; `none` when the entry has
no `published_parsed` attribute). -/
structure FeedEntry where
  link : Str
  title : Str
  published : Option Nat
  deriving Repr, DecidableEq

/-- The `NewsItem` model from `news/models.py`. -/
structure NewsItem where
  headline : Str
  url : Str
  timestamp : Nat
  source : Str
  deriving Repr, DecidableEq

/-- The per-entry body of `Command.handle` in `fetch_news.py`: strip link and
title, skip the entry if either is empty, skip it if a stored row already has
that URL, otherwise insert a new row built from the entry (timestamp
defaulting to the current time `now`, source computed by `netloc`, the model
of `urlparse(link).netloc`). -/
def processEntry (netloc : Str → Str) (now : Nat) (db : List NewsItem)
    (e : FeedEntry) : List NewsItem :=
  let link := pyStrip e.link
  let title := pyStrip e.title
  if link = [] ∨ title = [] then db
  else if db.any fun n => n.url == link then db
  else db ++ [{ headline := title, url := link,
                timestamp := e.published.getD now, source := netloc link }]

/-- `Command.handle` from `fetch_news.py`: fold the per-entry body over each
feed's entries, feed after feed, starting from the stored rows `db`. -/
def fetch_news_handle (netloc : Str → Str) (now : Nat) (db : List NewsItem)
    (feeds : List (List FeedEntry)) : List NewsItem :=
  feeds.foldl (fun d entries => entries.foldl (processEntry netloc now) d) db

/-- The entry is already handled relative to `db`: blank stripped link or
title, or its stripped link is already a stored URL. -/
abbrev urlCovered (db : List NewsItem) (e : FeedEntry) : Prop :=
  pyStrip e.link = [] ∨ pyStrip e.title = []
    ∨ (db.any fun n => n.url == pyStrip e.link) = true

/-- An already-handled entry leaves the stored rows unchanged. -/
theorem processEntry_skip (netloc : Str → Str) (now : Nat) (db : List NewsItem)
    (e : FeedEntry) (h : urlCovered db e) :
    processEntry netloc now db e = db := by
  simp only [processEntry]
  rcases h with h | h | h
  · rw [if_pos (Or.inl h)]
  · rw [if_pos (Or.inr h)]
  · by_cases h2 : pyStrip e.link = [] ∨ pyStrip e.title = []
    · rw [if_pos h2]
    · rw [if_neg h2, if_pos h]

/-- Processing an entry only ever appends to the stored rows. -/
theorem processEntry_grow (netloc : Str → Str) (now : Nat) (db : List NewsItem)
    (e : FeedEntry) : ∃ t, processEntry netloc now db e = db ++ t := by
  simp only [processEntry]
  by_cases h1 : pyStrip e.link = [] ∨ pyStrip e.title = []
  · exact ⟨[], by rw [if_pos h1, List.append_nil]⟩
  · by_cases h2 : (db.any fun n => n.url == pyStrip e.link) = true
    · exact ⟨[], by rw [if_neg h1, if_pos h2, List.append_nil]⟩
    · exact ⟨_, by rw [if_neg h1, if_neg h2]⟩

/-- Folding the per-entry body over a list of entries only appends rows. -/
theorem foldl_processEntry_grow (netloc : Str → Str) (now : Nat)
    (es : List FeedEntry) : ∀ db, ∃ t,
      List.foldl (processEntry netloc now) db es = db ++ t := by
  induction es with
  | nil => exact fun db => ⟨[], by simp⟩
  | cons e rest ih =>
      intro db
      obtain ⟨t1, h1⟩ := processEntry_grow netloc now db e
      obtain ⟨t2, h2⟩ := ih (processEntry netloc now db e)
      exact ⟨t1 ++ t2, by rw [List.foldl_cons, h2, h1, List.append_assoc]⟩

/-- Coverage of an entry persists when rows are appended. -/
theorem urlCovered_append (db t : List NewsItem) (e : FeedEntry)
    (h : urlCovered db e) : urlCovered (db ++ t) e := by
  rcases h with h | h | h
  · exact Or.inl h
  · exact Or.inr (Or.inl h)
  · refine Or.inr (Or.inr ?_)
    rw [List.any_append, h]
    rfl

/-- After processing an entry, that entry is covered: it was blank, already
stored, or has just been inserted. -/
theorem processEntry_covers (netloc : Str → Str) (now : Nat)
    (db : List NewsItem) (e : FeedEntry) :
    urlCovered (processEntry netloc now db e) e := by
  by_cases h1 : pyStrip e.link = [] ∨ pyStrip e.title = []
  · exact h1.imp id Or.inl
  · by_cases h2 : (db.any fun n => n.url == pyStrip e.link) = true
    · rw [processEntry_skip netloc now db e (Or.inr (Or.inr h2))]
      exact Or.inr (Or.inr h2)
    · have hp : processEntry netloc now db e
          = db ++ [{ headline := pyStrip e.title, url := pyStrip e.link,
                     timestamp := e.published.getD now,
                     source := netloc (pyStrip e.link) }] := by
        simp only [processEntry]
        rw [if_neg h1, if_neg h2]
      refine Or.inr (Or.inr ?_)
      rw [hp, List.any_append]
      simp

/-- Every entry of a processed batch is covered by the resulting rows. -/
theorem foldl_processEntry_covers (netloc : Str → Str) (now : Nat) :
    ∀ (es : List FeedEntry) (db : List NewsItem) (e : FeedEntry), e ∈ es →
      urlCovered (List.foldl (processEntry netloc now) db es) e := by
  intro es
  induction es with
  | nil => intro db e he; cases he
  | cons e0 rest ih =>
      intro db e he
      rw [List.foldl_cons]
      rcases List.mem_cons.mp he with h | h
      · subst h
        obtain ⟨t, ht⟩ :=
          foldl_processEntry_grow netloc now rest (processEntry netloc now db e)
        rw [ht]
        exact urlCovered_append _ _ _ (processEntry_covers netloc now db e)
      · exact ih (processEntry netloc now db e0) e h

/-- A batch all of whose entries are already covered changes nothing,
whatever the current time. -/
theorem foldl_processEntry_nop (netloc : Str → Str) (now2 : Nat) :
    ∀ (es : List FeedEntry) (db : List NewsItem),
      (∀ e ∈ es, urlCovered db e) →
      List.foldl (processEntry netloc now2) db es = db := by
  intro es
  induction es with
  | nil => intro db _; rfl
  | cons e0 rest ih =>
      intro db h
      rw [List.foldl_cons,
        processEntry_skip netloc now2 db e0 (h e0 (List.mem_cons_self e0 rest))]
      exact ih db fun e he => h e (List.mem_cons_of_mem e0 he)

/-- Processing one entry preserves distinctness of the stored URLs. -/
theorem processEntry_nodup (netloc : Str → Str) (now : Nat) (db : List NewsItem)
    (e : FeedEntry) (h : (db.map fun n => n.url).Nodup) :
    ((processEntry netloc now db e).map fun n => n.url).Nodup := by
  by_cases h1 : pyStrip e.link = [] ∨ pyStrip e.title = []
  · rwa [processEntry_skip netloc now db e (h1.imp id Or.inl)]
  · by_cases h2 : (db.any fun n => n.url == pyStrip e.link) = true
    · rwa [processEntry_skip netloc now db e (Or.inr (Or.inr h2))]
    · have hp : processEntry netloc now db e
          = db ++ [{ headline := pyStrip e.title, url := pyStrip e.link,
                     timestamp := e.published.getD now,
                     source := netloc (pyStrip e.link) }] := by
        simp only [processEntry]
        rw [if_neg h1, if_neg h2]
      have hnotin : pyStrip e.link ∉ db.map fun n => n.url := by
        intro hmem
        rw [List.mem_map] at hmem
        obtain ⟨n, hn, hurl⟩ := hmem
        apply h2
        rw [List.any_eq_true]
        exact ⟨n, hn, by simp [hurl]⟩
      rw [hp, List.map_append]
      refine List.Nodup.append h (List.nodup_singleton _) ?_
      intro a ha hb
      rw [List.map_singleton, List.mem_singleton] at hb
      subst hb
      exact hnotin ha

/-- Folding a batch preserves distinctness of the stored URLs. -/
theorem foldl_processEntry_nodup (netloc : Str → Str) (now : Nat) :
    ∀ (es : List FeedEntry) (db : List NewsItem),
      (db.map fun n => n.url).Nodup →
      ((List.foldl (processEntry netloc now) db es).map fun n => n.url).Nodup := by
  intro es
  induction es with
  | nil => exact fun db h => h
  | cons e0 rest ih =>
      exact fun db h => ih _ (processEntry_nodup netloc now db e0 h)

/-- The nested fold over feeds equals one fold over the flattened entries. -/
theorem fetch_news_handle_eq_flatten (netloc : Str → Str) (now : Nat)
    (db : List NewsItem) (feeds : List (List FeedEntry)) :
    fetch_news_handle netloc now db feeds
      = List.foldl (processEntry netloc now) db feeds.flatten := by
  rw [fetch_news_handle, List.foldl_flatten]

/-- C3: the ingestion run keeps stored URLs distinct (so among entries
sharing a URL at most one row exists), an entry whose stripped link is
already stored is skipped without touching the rows (so only the first
encountered entry for a URL is persisted), and a second run over the same
feeds, at any later time, inserts nothing: the run is idempotent with
respect to the stored rows. -/
theorem fetch_news_dedup_idempotent (netloc : Str → Str) (now now2 : Nat)
    (db : List NewsItem) (feeds : List (List FeedEntry)) :
    ((db.map fun n => n.url).Nodup →
        ((fetch_news_handle netloc now db feeds).map fun n => n.url).Nodup)
    ∧ fetch_news_handle netloc now2 (fetch_news_handle netloc now db feeds) feeds
        = fetch_news_handle netloc now db feeds
    ∧ ∀ (db2 : List NewsItem) (e : FeedEntry),
        (db2.any fun n => n.url == pyStrip e.link) = true →
        processEntry netloc now2 db2 e = db2 := by
  refine ⟨?_, ?_, ?_⟩
  · intro h
    rw [fetch_news_handle_eq_flatten]
    exact foldl_processEntry_nodup netloc now feeds.flatten db h
  · have hcov : ∀ e ∈ feeds.flatten,
        urlCovered (fetch_news_handle netloc now db feeds) e := by
      intro e he
      rw [fetch_news_handle_eq_flatten]
      exact foldl_processEntry_covers netloc now feeds.flatten db e he
    rw [fetch_news_handle_eq_flatten netloc now2]
    exact foldl_processEntry_nop netloc now2 feeds.flatten _ hcov
  · intro db2 e h
    exact processEntry_skip netloc now2 db2 e (Or.inr (Or.inr h))

/-- C3 witness: one feed with two entries sharing the URL `"h"`; starting
from an empty table the run stores distinct URLs, re-running at a later time
changes nothing, and processing the duplicate entry against the row created
from the first entry is a no-op. -/
theorem fetch_news_dedup_idempotent_witness :
    (((fetch_news_handle (fun _ => []) 0 []
        [[⟨[104], [116], none⟩, ⟨[104], [117], some 5⟩]]).map fun n => n.url).Nodup)
    ∧ fetch_news_handle (fun _ => []) 1
        (fetch_news_handle (fun _ => []) 0 []
          [[⟨[104], [116], none⟩, ⟨[104], [117], some 5⟩]])
        [[⟨[104], [116], none⟩, ⟨[104], [117], some 5⟩]]
      = fetch_news_handle (fun _ => []) 0 []
          [[⟨[104], [116], none⟩, ⟨[104], [117], some 5⟩]]
    ∧ processEntry (fun _ => []) 1 [⟨[116], [104], 0, []⟩] ⟨[104], [117], some 5⟩
        = [⟨[116], [104], 0, []⟩] := by
  have h := fetch_news_dedup_idempotent (fun _ => []) 0 1 []
    [[⟨[104], [116], none⟩, ⟨[104], [117], some 5⟩]]
  exact ⟨h.1 (by decide), h.2.1,
    h.2.2 [⟨[116], [104], 0, []⟩] ⟨[104], [117], some 5⟩ (by decide)⟩

end TradeCheck
